import Mathlib

/-!
Verification of the neural-face-attendance core against its specification.

The repository ships the REST/API documentation and the React frontend;
the backend engine itself (attendance rules, absence sweeper, face
matcher and embedding aggregator) is described by the specification and
its API documentation.  Those components are modelled here from the
specification; the frontend routing and HTTP-interceptor logic is
embedded directly from the JavaScript sources.

Conventions: instants are epoch seconds as integers; civil-time
arithmetic uses Euclidean division so that time-of-day is always in
[0, 86400).  Similarity scores at the attendance-engine boundary are
rationals; embedding-vector mathematics (cosine similarity, L2
normalisation) is over the reals.
-/

namespace FaceAttendance

/-- Classification of an attendance record: `present`, `late` or `absent`. -/
inductive Classification where
  | present
  | late
  | absent
deriving DecidableEq, Repr

/-- Record method: biometric (`face`), `manual`, or sweeper-created (`systemAbsent`). -/
inductive Method where
  | face
  | manual
  | systemAbsent
deriving DecidableEq, Repr

/-- Modelled from the spec: the persisted AttendanceRecord shape
(§3, §6) of the backend, whose implementation is not in the repository
sources; fields are identity reference, civil calendar date (day
number), event instant, classification, method, optional similarity
and creation instant. -/
structure AttendanceRecord where
  userId : String
  date : Int
  eventInstant : Int
  classification : Classification
  method : Method
  similarity : Option ℚ
  createdAt : Int
deriving DecidableEq, Repr

/-- Modelled from the spec: the externally configurable parameters of the
attendance engine (§6): civil timezone offset (default UTC+7 =
25200 s), late cutoff time-of-day (default 07:30 local = 27000 s) and
check-in confidence floor (default 0.6). -/
structure Config where
  tzOffsetSeconds : Int
  cutoffSeconds : Int
  confidenceFloor : ℚ
deriving DecidableEq, Repr

/-- The deployment defaults: UTC+7, 07:30 cutoff, 0.6 floor. -/
def defaultConfig : Config :=
  { tzOffsetSeconds := 25200, cutoffSeconds := 27000, confidenceFloor := 3/5 }

/-- Local civil clock value of an instant: shift by the timezone offset. -/
def localSeconds (cfg : Config) (t : Int) : Int :=
  t + cfg.tzOffsetSeconds

/-- Civil calendar date (day number since epoch) of an instant in the
configured timezone. -/
def civilDate (cfg : Config) (t : Int) : Int :=
  Int.ediv (localSeconds cfg t) 86400

/-- Civil time-of-day in seconds (in [0, 86400)) of an instant in the
configured timezone. -/
def timeOfDay (cfg : Config) (t : Int) : Int :=
  Int.emod (localSeconds cfg t) 86400

/-- Modelled from the spec: classification rule (§4.4) of the backend
check-in, not in the repository sources — `present` iff the local civil
time-of-day is at or before the cutoff, else `late`. -/
def classify (cfg : Config) (t : Int) : Classification :=
  if timeOfDay cfg t ≤ cfg.cutoffSeconds then .present else .late

/-- Check-in method at the engine boundary: `face` carries the verified
similarity score, `manual` carries none. -/
inductive CheckInMethod where
  | face (sim : ℚ)
  | manual
deriving DecidableEq, Repr

/-- A check-in request: identity, event instant and method. -/
structure CheckInReq where
  userId : String
  eventInstant : Int
  method : CheckInMethod
deriving DecidableEq, Repr

/-- Errors of the attendance engine's check-in. -/
inductive AttendanceError where
  | alreadyCheckedIn
  | lowConfidence (score : ℚ)
deriving DecidableEq, Repr

/-- Whether `m` is a check-in method class (`face` or `manual`). -/
def isFaceManual (m : Method) : Bool :=
  match m with
  | .face => true
  | .manual => true
  | .systemAbsent => false

/-- Number of `face`/`manual` records in the store for `(uid, d)`. -/
def fmCount (st : List AttendanceRecord) (uid : String) (d : Int) : Nat :=
  (st.filter fun r => r.userId == uid && r.date == d && isFaceManual r.method).length

/-- Existence check the engine performs before inserting: is there a
`face`/`manual` record for `(uid, d)` already? -/
def hasFaceManualRecord (st : List AttendanceRecord) (uid : String) (d : Int) : Bool :=
  st.any fun r => r.userId == uid && r.date == d && isFaceManual r.method

/-- The record a successful check-in inserts. -/
def mkRecord (cfg : Config) (req : CheckInReq) : AttendanceRecord :=
  { userId := req.userId
    date := civilDate cfg req.eventInstant
    eventInstant := req.eventInstant
    classification := classify cfg req.eventInstant
    method := match req.method with | .face _ => .face | .manual => .manual
    similarity := match req.method with | .face s => some s | .manual => none
    createdAt := req.eventInstant }

/-- Modelled from the spec: the backend `check_in` (§4.4), whose
implementation is not in the repository sources.  In the specification's
order: resolve the civil date, reject a duplicate `(identity, date)`
with `AlreadyCheckedIn`, reject a `face` similarity below the floor
with `LowConfidence(score)`, otherwise classify by the cutoff and
insert exactly one record.  Returns the result together with the
(possibly extended) record store. -/
def checkIn (cfg : Config) (st : List AttendanceRecord) (req : CheckInReq) :
    Except AttendanceError AttendanceRecord × List AttendanceRecord :=
  let d := civilDate cfg req.eventInstant
  if hasFaceManualRecord st req.userId d then
    (.error .alreadyCheckedIn, st)
  else
    match req.method with
    | .face sim =>
        if sim < cfg.confidenceFloor then
          (.error (.lowConfidence sim), st)
        else
          (.ok (mkRecord cfg req), mkRecord cfg req :: st)
    | .manual => (.ok (mkRecord cfg req), mkRecord cfg req :: st)

/-- Run a sequence of check-in attempts, threading the store and
counting the successful ones. -/
def runCheckIns (cfg : Config) (st : List AttendanceRecord) :
    List CheckInReq → Nat × List AttendanceRecord
  | [] => (0, st)
  | req :: rest =>
      match checkIn cfg st req with
      | (.ok _, st') =>
          ((runCheckIns cfg st' rest).1 + 1, (runCheckIns cfg st' rest).2)
      | (.error _, st') => runCheckIns cfg st' rest

/-- Any record (of any method) for `(uid, d)` in the store — the
per-identity existence check the absence sweeper performs. -/
def hasAnyRecord (st : List AttendanceRecord) (uid : String) (d : Int) : Bool :=
  st.any fun r => r.userId == uid && r.date == d

/-- The `absent`-classified, `systemAbsent`-method record the sweeper
inserts for a no-show. -/
def absentRecord (uid : String) (d : Int) (now : Int) : AttendanceRecord :=
  { userId := uid
    date := d
    eventInstant := now
    classification := .absent
    method := .systemAbsent
    similarity := none
    createdAt := now }

/-- Modelled from the spec: the backend absence sweeper (§4.5), whose
implementation is not in the repository sources — for each identity
with a registered template, if no attendance record exists for the
given date, insert a system-absent record; return the count created
with the new store. -/
def sweep (st : List AttendanceRecord) (registered : List String) (d : Int) (now : Int) :
    Nat × List AttendanceRecord :=
  match registered with
  | [] => (0, st)
  | uid :: rest =>
      if hasAnyRecord st uid d then
        sweep st rest d now
      else
        ((sweep (absentRecord uid d now :: st) rest d now).1 + 1,
          (sweep (absentRecord uid d now :: st) rest d now).2)

/-- The statistics report of `GET /api/attendance/stats`. -/
structure Stats where
  presentCount : Nat
  lateCount : Nat
  absentCount : Nat
  totalDays : Nat
  attendancePercentage : ℚ
  currentStreak : Nat
deriving DecidableEq, Repr

/-- One pass over the record list accumulating the present/late/absent
counts, the way the backend aggregates a query result. -/
def computeCounts : List AttendanceRecord → Nat × Nat × Nat
  | [] => (0, 0, 0)
  | r :: rs =>
      match r.classification with
      | .present => ((computeCounts rs).1 + 1, (computeCounts rs).2.1, (computeCounts rs).2.2)
      | .late => ((computeCounts rs).1, (computeCounts rs).2.1 + 1, (computeCounts rs).2.2)
      | .absent => ((computeCounts rs).1, (computeCounts rs).2.1, (computeCounts rs).2.2 + 1)

/-- Does a day's (optional) classification count towards the streak —
a non-absent record must be present. -/
def isAttended : Option Classification → Bool
  | some .present => true
  | some .late => true
  | some .absent => false
  | none => false

/-- Consecutive trailing attended days, scanning most-recent first and
stopping at the first absent or missing day. -/
def streak : List (Option Classification) → Nat
  | [] => 0
  | day :: rest => if isAttended day then streak rest + 1 else 0

/-- Modelled from the spec: the backend `statistics` (§4.4), whose
implementation is not in the repository sources — counts per
classification over the identity's records in range, total days,
attendance percentage and current streak.  `recentDays` is the
per-day classification of the identity, most recent day first. -/
def statistics (rs : List AttendanceRecord) (recentDays : List (Option Classification)) :
    Stats :=
  { presentCount := (computeCounts rs).1
    lateCount := (computeCounts rs).2.1
    absentCount := (computeCounts rs).2.2
    totalDays := (computeCounts rs).1 + (computeCounts rs).2.1 + (computeCounts rs).2.2
    attendancePercentage :=
      ((((computeCounts rs).1 : ℚ) + ((computeCounts rs).2.1 : ℚ)) /
          (((computeCounts rs).1 : ℚ) + ((computeCounts rs).2.1 : ℚ) +
            ((computeCounts rs).2.2 : ℚ))) * 100
    currentStreak := streak recentDays }

/-! ### Embedding vectors, matcher and aggregator (real-valued) -/

/-- Dot product of two embedding vectors. -/
def dotVec : List ℝ → List ℝ → ℝ
  | [], _ => 0
  | _, [] => 0
  | x :: xs, y :: ys => x * y + dotVec xs ys

/-- Sum of squares of a vector (the square of its L2 norm). -/
def sumSq (v : List ℝ) : ℝ :=
  (v.map fun x => x * x).sum

/-- L2 norm of a vector. -/
noncomputable def l2norm (v : List ℝ) : ℝ :=
  Real.sqrt (sumSq v)

/-- Modelled from the spec: cosine similarity (§4.3) as the matcher
computes it — normalised dot product. -/
noncomputable def cosineSim (a b : List ℝ) : ℝ :=
  dotVec a b / (l2norm a * l2norm b)

/-- Maximum similarity among a list of scored identities (the first
score seeds the fold, so the empty list never arises in use). -/
noncomputable def maxScore : List (String × ℝ) → ℝ
  | [] => 0
  | p :: ps => ps.foldl (fun acc q => max acc q.2) p.2

/-- Score every stored template against the probe by cosine similarity,
keeping the identity labels. -/
noncomputable def scoreAll (probe : List ℝ) (templates : List (String × List ℝ)) :
    List (String × ℝ) :=
  templates.map fun t => (t.1, cosineSim probe t.2)

open Classical in
/-- Modelled from the spec: the matcher's `identify` (§4.3), whose
implementation is not in the repository sources — score every stored
template by cosine similarity with the probe, select the maximum,
accept only when the maximum reaches the threshold and exactly one
identity attains it; an ambiguous tie rejects (fail closed). -/
noncomputable def identify (probe : List ℝ) (templates : List (String × List ℝ))
    (threshold : ℝ) : Option (String × ℝ) :=
  match templates with
  | [] => none
  | _ :: _ =>
      if threshold ≤ maxScore (scoreAll probe templates) ∧
          ((scoreAll probe templates).filter fun p =>
            decide (p.2 = maxScore (scoreAll probe templates))).length = 1 then
        (scoreAll probe templates).find? fun p =>
          decide (p.2 = maxScore (scoreAll probe templates))
      else
        none

/-- Outcome of the encoder gateway on one photo. -/
inductive EncodeResult where
  | noFace
  | multiFace
  | ok (v : List ℝ)

/-- Enrollment errors of the embedding aggregator. -/
inductive EnrollError where
  | invalidPhotoCount
  | noFaceDetected (index : Nat)
  | multipleFacesDetected
deriving DecidableEq, Repr

/-- Collect the per-photo embeddings, failing hard on a photo with zero
or multiple detected faces (`index` reports which photo). -/
def encodeAll (index : Nat) : List EncodeResult → Except EnrollError (List (List ℝ))
  | [] => .ok []
  | .noFace :: _ => .error (.noFaceDetected index)
  | .multiFace :: _ => .error .multipleFacesDetected
  | .ok v :: rest => (encodeAll (index + 1) rest).map fun vs => v :: vs

/-- Element-wise sum of two vectors. -/
def addVec (a b : List ℝ) : List ℝ :=
  List.zipWith (· + ·) a b

/-- Element-wise arithmetic mean of a batch of vectors. -/
noncomputable def meanVec : List (List ℝ) → List ℝ
  | [] => []
  | v :: vs => (vs.foldl addVec v).map fun x => x / ((vs.length : ℝ) + 1)

/-- Re-normalise a vector to unit L2 length. -/
noncomputable def normalize (v : List ℝ) : List ℝ :=
  v.map fun x => x / l2norm v

/-- Modelled from the spec: the embedding aggregator (§4.1), whose
implementation is not in the repository sources — reject a batch whose
length is outside [3, 10] with `InvalidPhotoCount`, reject any photo
with zero or multiple faces, otherwise return the element-wise mean of
the embeddings re-normalised to unit length, together with the photo
count used. -/
noncomputable def aggregate (photos : List EncodeResult) :
    Except EnrollError (List ℝ × Nat) :=
  if photos.length < 3 ∨ 10 < photos.length then
    .error .invalidPhotoCount
  else
    (encodeAll 0 photos).map fun embs => (normalize (meanVec embs), photos.length)

end FaceAttendance

namespace Frontend

/-- The stored frontend user; only the `role` field drives routing. -/
structure FrontUser where
  role : String
deriving DecidableEq, Repr

/-- `isAdmin` from `AuthContext.jsx`: `user?.role === 'admin'`. -/
def isAdmin (user : Option FrontUser) : Bool :=
  match user with
  | some u => u.role == "admin"
  | none => false

/-- `isTeacher` from `AuthContext.jsx`:
`user?.role === 'teacher' || user?.role === 'admin'`. -/
def isTeacher (user : Option FrontUser) : Bool :=
  match user with
  | some u => u.role == "teacher" || u.role == "admin"
  | none => false

/-- What a route component renders. -/
inductive RouteRender where
  | loadingView
  | redirectLogin
  | redirectDashboard
  | children
deriving DecidableEq, Repr

/-- `ProtectedRoute` from `App.jsx`: show the loading view while auth is
resolving, redirect to `/login` when no user is stored, redirect an
admin-only route to `/dashboard` when the user is not an admin,
otherwise render the children. -/
def protectedRoute (adminOnly loading : Bool) (user : Option FrontUser) : RouteRender :=
  if loading then .loadingView
  else
    match user with
    | none => .redirectLogin
    | some u =>
        if adminOnly && !(isAdmin (some u)) then .redirectDashboard
        else .children

/-- The localStorage slots the API layer touches. -/
structure Storage where
  accessToken : Option String
  refreshTokenVal : Option String
  user : Option String
deriving DecidableEq, Repr

/-- An in-flight axios request: the `_retry` flag and its auth header. -/
structure ApiRequest where
  retryFlag : Bool
  authHeader : Option String
deriving DecidableEq, Repr

/-- What the response-error interceptor resolves to. -/
inductive InterceptOutcome where
  | retryRequest (req : ApiRequest)
  | rejectRefreshError
  | rejectOriginal
deriving DecidableEq, Repr

/-- Result of one pass through the response-error interceptor: the
outcome, the updated storage, an optional navigation target, and
whether a token refresh was attempted. -/
structure InterceptResult where
  outcome : InterceptOutcome
  storage : Storage
  redirect : Option String
  didRefresh : Bool
deriving DecidableEq, Repr

/-- The response-error interceptor of `services/api.js`: on a 401 whose
request is not already marked `_retry`, set `_retry`, and if a refresh
token is stored attempt a refresh — on success store the new access
token and replay the request with it; on failure clear the access
token, refresh token and user, navigate to `/login` and reject with
the refresh error.  Any other error (including a 401 already retried,
or one with no stored refresh token) is rejected as-is. -/
def respondError (st : Storage) (req : ApiRequest) (status : Option Nat)
    (refreshOk : Bool) (newTok : String) : InterceptResult :=
  if status == some 401 && !req.retryFlag then
    let req' : ApiRequest := { req with retryFlag := true }
    match st.refreshTokenVal with
    | some _ =>
        if refreshOk then
          { outcome := .retryRequest { req' with authHeader := some newTok }
            storage := { st with accessToken := some newTok }
            redirect := none
            didRefresh := true }
        else
          { outcome := .rejectRefreshError
            storage := { accessToken := none, refreshTokenVal := none, user := none }
            redirect := some ("/login")
            didRefresh := true }
    | none =>
        { outcome := .rejectOriginal, storage := st, redirect := none, didRefresh := false }
  else
    { outcome := .rejectOriginal, storage := st, redirect := none, didRefresh := false }

/-- Number of refresh attempts across a request's whole lifecycle: the
first interceptor pass and, when it replays the request and the replay
fails again, the second pass on the replayed request. -/
def lifecycleRefreshes (st : Storage) (req : ApiRequest) (status1 status2 : Option Nat)
    (ok1 ok2 : Bool) (tok1 tok2 : String) : Nat :=
  let r1 := respondError st req status1 ok1 tok1
  match r1.outcome with
  | .retryRequest req' =>
      let r2 := respondError r1.storage req' status2 ok2 tok2
      (if r1.didRefresh then 1 else 0) + (if r2.didRefresh then 1 else 0)
  | _ => if r1.didRefresh then 1 else 0

end Frontend

namespace FaceAttendance

/-! ### Attendance engine lemmas -/

theorem isFaceManual_iff {m : Method} :
    isFaceManual m = true ↔ m = .face ∨ m = .manual := by
  cases m <;> simp [isFaceManual]

theorem hasFaceManualRecord_iff {st : List AttendanceRecord} {uid : String} {d : Int} :
    hasFaceManualRecord st uid d = true ↔
      ∃ r ∈ st, r.userId = uid ∧ r.date = d ∧ (r.method = .face ∨ r.method = .manual) := by
  simp [hasFaceManualRecord, List.any_eq_true, Bool.and_eq_true, beq_iff_eq,
    isFaceManual_iff, and_assoc]

theorem fmCount_pos_iff {st : List AttendanceRecord} {uid : String} {d : Int} :
    0 < fmCount st uid d ↔
      ∃ r ∈ st, r.userId = uid ∧ r.date = d ∧ (r.method = .face ∨ r.method = .manual) := by
  rw [fmCount, List.length_pos, Ne, List.filter_eq_nil_iff]
  push_neg
  simp only [Bool.and_eq_true, beq_iff_eq, isFaceManual_iff, and_assoc]

theorem hasFaceManualRecord_eq_false_iff {st : List AttendanceRecord} {uid : String}
    {d : Int} : hasFaceManualRecord st uid d = false ↔ fmCount st uid d = 0 := by
  rw [← Bool.not_eq_true, hasFaceManualRecord_iff, ← fmCount_pos_iff]
  omega

theorem checkIn_already {cfg : Config} {st : List AttendanceRecord} {req : CheckInReq}
    (h : hasFaceManualRecord st req.userId (civilDate cfg req.eventInstant) = true) :
    checkIn cfg st req = (.error .alreadyCheckedIn, st) := by
  unfold checkIn
  simp [h]

theorem checkIn_low {cfg : Config} {st : List AttendanceRecord} {req : CheckInReq}
    {sim : ℚ}
    (h : hasFaceManualRecord st req.userId (civilDate cfg req.eventInstant) = false)
    (hm : req.method = .face sim) (hs : sim < cfg.confidenceFloor) :
    checkIn cfg st req = (.error (.lowConfidence sim), st) := by
  unfold checkIn
  simp [h, hm, hs]

theorem checkIn_ok_face {cfg : Config} {st : List AttendanceRecord} {req : CheckInReq}
    {sim : ℚ}
    (h : hasFaceManualRecord st req.userId (civilDate cfg req.eventInstant) = false)
    (hm : req.method = .face sim) (hs : ¬ sim < cfg.confidenceFloor) :
    checkIn cfg st req = (.ok (mkRecord cfg req), mkRecord cfg req :: st) := by
  unfold checkIn
  simp [h, hm, hs]

theorem checkIn_ok_manual {cfg : Config} {st : List AttendanceRecord} {req : CheckInReq}
    (h : hasFaceManualRecord st req.userId (civilDate cfg req.eventInstant) = false)
    (hm : req.method = .manual) :
    checkIn cfg st req = (.ok (mkRecord cfg req), mkRecord cfg req :: st) := by
  unfold checkIn
  simp [h, hm]

theorem checkIn_ok_eq {cfg : Config} {st : List AttendanceRecord} {req : CheckInReq}
    {r : AttendanceRecord} {st' : List AttendanceRecord}
    (h : checkIn cfg st req = (.ok r, st')) :
    r = mkRecord cfg req ∧ st' = mkRecord cfg req :: st := by
  by_cases hd : hasFaceManualRecord st req.userId (civilDate cfg req.eventInstant)
  · rw [checkIn_already hd] at h
    exact absurd h (by simp)
  · rw [Bool.not_eq_true] at hd
    cases hm : req.method with
    | face sim =>
        by_cases hs : sim < cfg.confidenceFloor
        · rw [checkIn_low hd hm hs] at h
          exact absurd h (by simp)
        · rw [checkIn_ok_face hd hm hs] at h
          simp only [Prod.mk.injEq, Except.ok.injEq] at h
          exact ⟨h.1.symm, h.2.symm⟩
    | manual =>
        rw [checkIn_ok_manual hd hm] at h
        simp only [Prod.mk.injEq, Except.ok.injEq] at h
        exact ⟨h.1.symm, h.2.symm⟩

/-- C2: for every successful check-in, the record's classification is a
pure function of the civil time-of-day of the event instant in the
configured timezone — `present` iff the time-of-day is at or before the
cutoff, `late` otherwise; with the default configuration (UTC+7, cutoff
07:30 local) a check-in at 07:29 local time (instant 1740, i.e. 00:29
UTC) is classified `present` and one at 07:31 local time (instant 1860)
is classified `late`. -/
theorem checkIn_classification_cutoff :
    (∀ (cfg : Config) (st : List AttendanceRecord) (req : CheckInReq)
        (r : AttendanceRecord) (st' : List AttendanceRecord),
        checkIn cfg st req = (.ok r, st') →
        r.classification =
          (if timeOfDay cfg req.eventInstant ≤ cfg.cutoffSeconds then
            Classification.present else Classification.late)) ∧
    (checkIn defaultConfig [] ⟨"u", 1740, .manual⟩ =
        (.ok (mkRecord defaultConfig ⟨"u", 1740, .manual⟩),
          [mkRecord defaultConfig ⟨"u", 1740, .manual⟩]) ∧
      (mkRecord defaultConfig ⟨"u", 1740, .manual⟩).classification = .present) ∧
    (checkIn defaultConfig [] ⟨"u", 1860, .manual⟩ =
        (.ok (mkRecord defaultConfig ⟨"u", 1860, .manual⟩),
          [mkRecord defaultConfig ⟨"u", 1860, .manual⟩]) ∧
      (mkRecord defaultConfig ⟨"u", 1860, .manual⟩).classification = .late) := by
  refine ⟨?_, ⟨checkIn_ok_manual rfl rfl, rfl⟩, ⟨checkIn_ok_manual rfl rfl, rfl⟩⟩
  intro cfg st req r st' h
  rcases checkIn_ok_eq h with ⟨hr, _⟩
  rw [hr]
  rfl

/-- Witness for C2 at a concrete face check-in with similarity 0.9 at
instant 1740 (07:29 local) on the empty store. -/
theorem checkIn_classification_cutoff_witness :
    (mkRecord defaultConfig ⟨"w", 1740, .face (9/10)⟩).classification =
      (if timeOfDay defaultConfig 1740 ≤ defaultConfig.cutoffSeconds then
        Classification.present else Classification.late) :=
  checkIn_classification_cutoff.1 defaultConfig [] ⟨"w", 1740, .face (9/10)⟩
    (mkRecord defaultConfig ⟨"w", 1740, .face (9/10)⟩)
    [mkRecord defaultConfig ⟨"w", 1740, .face (9/10)⟩]
    (checkIn_ok_face rfl rfl (by norm_num [defaultConfig]))

/-- C3 counterexample: with a `manual` record already present for the
identity and civil date, a `face` check-in with similarity 0.59 (below
the 0.6 floor) is rejected with `AlreadyCheckedIn`, not with
`LowConfidence(0.59)` — the duplicate check precedes the confidence
check, so the claim's universal statement fails at this input. -/
theorem lowConfidence_claim_counterexample :
    (checkIn defaultConfig [mkRecord defaultConfig ⟨"u", 1000, .manual⟩]
        ⟨"u", 1740, .face (59/100)⟩).1 ≠
      .error (.lowConfidence (59/100)) ∧
    (checkIn defaultConfig [mkRecord defaultConfig ⟨"u", 1000, .manual⟩]
        ⟨"u", 1740, .face (59/100)⟩).1 = .error .alreadyCheckedIn := by
  have hc : checkIn defaultConfig [mkRecord defaultConfig ⟨"u", 1000, .manual⟩]
      ⟨"u", 1740, .face (59/100)⟩ =
      (.error .alreadyCheckedIn, [mkRecord defaultConfig ⟨"u", 1000, .manual⟩]) :=
    checkIn_already rfl
  rw [hc]
  exact ⟨by simp, rfl⟩

/-- C3 (amended): provided no `face`/`manual` record exists yet for the
identity and civil date, a `face` check-in with similarity below the
configured floor fails with `LowConfidence` carrying exactly the
rejected score, and the record store is unchanged — no record is
created on this error. -/
theorem checkIn_lowConfidence_rejected (cfg : Config) (st : List AttendanceRecord)
    (req : CheckInReq) (sim : ℚ)
    (hfresh : fmCount st req.userId (civilDate cfg req.eventInstant) = 0)
    (hm : req.method = .face sim) (hs : sim < cfg.confidenceFloor) :
    checkIn cfg st req = (.error (.lowConfidence sim), st) :=
  checkIn_low (hasFaceManualRecord_eq_false_iff.2 hfresh) hm hs

/-- Witness for the amended C3: similarity 0.59 against floor 0.6 on the
empty store fails with `LowConfidence(0.59)` and leaves the store empty. -/
theorem checkIn_lowConfidence_rejected_witness :
    checkIn defaultConfig [] ⟨"u", 1740, .face (59/100)⟩ =
      (.error (.lowConfidence (59/100)), []) :=
  checkIn_lowConfidence_rejected defaultConfig [] ⟨"u", 1740, .face (59/100)⟩ (59/100)
    rfl rfl (by norm_num [defaultConfig])

theorem fmCount_cons (r : AttendanceRecord) (st : List AttendanceRecord) (uid : String)
    (d : Int) :
    fmCount (r :: st) uid d =
      (if (r.userId == uid && r.date == d && isFaceManual r.method) = true then 1 else 0) +
        fmCount st uid d := by
  by_cases hp : (r.userId == uid && r.date == d && isFaceManual r.method) = true
  · simp [fmCount, List.filter_cons, hp, Nat.add_comm]
  · simp [fmCount, List.filter_cons, hp]

theorem mkRecord_userId (cfg : Config) (req : CheckInReq) :
    (mkRecord cfg req).userId = req.userId := rfl

theorem mkRecord_date (cfg : Config) (req : CheckInReq) :
    (mkRecord cfg req).date = civilDate cfg req.eventInstant := rfl

theorem runCheckIns_invariant (cfg : Config) (uid : String) (d : Int)
    (reqs : List CheckInReq) :
    ∀ st : List AttendanceRecord,
      (∀ q ∈ reqs, q.userId = uid ∧ civilDate cfg q.eventInstant = d) →
      fmCount (runCheckIns cfg st reqs).2 uid d =
          fmCount st uid d + (runCheckIns cfg st reqs).1 ∧
        (runCheckIns cfg st reqs).1 ≤ (if fmCount st uid d = 0 then 1 else 0) := by
  induction reqs with
  | nil => intro st _; simp [runCheckIns]
  | cons req rest ih =>
      intro st hall
      obtain ⟨hqu, hqd⟩ := hall req (by simp)
      have hrest : ∀ q ∈ rest, q.userId = uid ∧ civilDate cfg q.eventInstant = d :=
        fun q hq => hall q (by simp [hq])
      by_cases hd : hasFaceManualRecord st req.userId (civilDate cfg req.eventInstant) = true
      · have hck := @checkIn_already cfg st req hd
        have hpos : 0 < fmCount st uid d :=
          fmCount_pos_iff.2 (hasFaceManualRecord_iff.1 (by rw [hqu, hqd] at hd; exact hd))
        have hrun : runCheckIns cfg st (req :: rest) = runCheckIns cfg st rest := by
          simp [runCheckIns, hck]
        rw [hrun]
        exact ih st hrest
      · rw [Bool.not_eq_true] at hd
        have h0 : fmCount st uid d = 0 := by
          rw [← hqu, ← hqd]
          exact hasFaceManualRecord_eq_false_iff.1 hd
        have hins : ∀ hm2 : (mkRecord cfg req).method = .face ∨
              (mkRecord cfg req).method = .manual,
            fmCount (mkRecord cfg req :: st) uid d = 1 := by
          intro hm2
          have hfm : isFaceManual (mkRecord cfg req).method = true := isFaceManual_iff.2 hm2
          have hcond : ((mkRecord cfg req).userId == uid && (mkRecord cfg req).date == d &&
              isFaceManual (mkRecord cfg req).method) = true := by
            rw [mkRecord_userId, mkRecord_date, hqu, hqd, hfm]
            simp
          rw [fmCount_cons, if_pos hcond, h0]
        cases hm : req.method with
        | face sim =>
            by_cases hs : sim < cfg.confidenceFloor
            · have hck := checkIn_low hd hm hs
              have hrun : runCheckIns cfg st (req :: rest) = runCheckIns cfg st rest := by
                simp [runCheckIns, hck]
              rw [hrun]
              exact ih st hrest
            · have hck := checkIn_ok_face hd hm hs
              have hmm : (mkRecord cfg req).method = .face ∨
                  (mkRecord cfg req).method = .manual := by
                simp [mkRecord, hm]
              have hfm1 := hins hmm
              have hrun₁ : (runCheckIns cfg st (req :: rest)).1 =
                  (runCheckIns cfg (mkRecord cfg req :: st) rest).1 + 1 := by
                simp [runCheckIns, hck]
              have hrun₂ : (runCheckIns cfg st (req :: rest)).2 =
                  (runCheckIns cfg (mkRecord cfg req :: st) rest).2 := by
                simp [runCheckIns, hck]
              rcases ih (mkRecord cfg req :: st) hrest with ⟨h1, h2⟩
              rw [hfm1] at h2
              simp only [hfm1] at h1
              constructor
              · rw [hrun₂, h1, h0, hrun₁]
                simp at h2
                omega
              · rw [hrun₁, h0]
                simp at h2 ⊢
                omega
        | manual =>
            have hck := checkIn_ok_manual hd hm
            have hmm : (mkRecord cfg req).method = .face ∨
                (mkRecord cfg req).method = .manual := by
              simp [mkRecord, hm]
            have hfm1 := hins hmm
            have hrun₁ : (runCheckIns cfg st (req :: rest)).1 =
                (runCheckIns cfg (mkRecord cfg req :: st) rest).1 + 1 := by
              simp [runCheckIns, hck]
            have hrun₂ : (runCheckIns cfg st (req :: rest)).2 =
                (runCheckIns cfg (mkRecord cfg req :: st) rest).2 := by
              simp [runCheckIns, hck]
            rcases ih (mkRecord cfg req :: st) hrest with ⟨h1, h2⟩
            rw [hfm1] at h2
            simp only [hfm1] at h1
            constructor
            · rw [hrun₂, h1, h0, hrun₁]
              simp at h2
              omega
            · rw [hrun₁, h0]
              simp at h2 ⊢
              omega

/-- C1: with the store holding no `face`/`manual` record for the identity
and civil date, a check-in attempt against a store that does hold one
fails with `AlreadyCheckedIn` and leaves the store unchanged, and under
any sequence of check-in attempts for that one identity and date at
most one succeeds, the number of `face`/`manual` records for the pair
in the final store equalling the number of successes — never two
records, never zero on a successful attempt. -/
theorem checkIn_once_per_day (cfg : Config) (uid : String) (d : Int)
    (st : List AttendanceRecord) (reqs : List CheckInReq)
    (h0 : fmCount st uid d = 0)
    (hall : ∀ q ∈ reqs, q.userId = uid ∧ civilDate cfg q.eventInstant = d) :
    (∀ (st₁ : List AttendanceRecord) (q : CheckInReq),
        q.userId = uid → civilDate cfg q.eventInstant = d →
        (∃ r ∈ st₁, r.userId = uid ∧ r.date = d ∧
          (r.method = .face ∨ r.method = .manual)) →
        checkIn cfg st₁ q = (.error .alreadyCheckedIn, st₁)) ∧
      (runCheckIns cfg st reqs).1 ≤ 1 ∧
      fmCount (runCheckIns cfg st reqs).2 uid d = (runCheckIns cfg st reqs).1 := by
  have main := runCheckIns_invariant cfg uid d reqs st hall
  refine ⟨?_, ?_, ?_⟩
  · intro st₁ q hqu hqd hex
    exact checkIn_already (by rw [hqu, hqd]; exact hasFaceManualRecord_iff.2 hex)
  · have h2 := main.2
    rw [h0] at h2
    simpa using h2
  · have h1 := main.1
    rw [h0] at h1
    simpa using h1

/-- Witness for C1: two manual check-ins for the same identity on the
same civil day starting from the empty store — exactly one succeeds and
exactly one record exists afterwards. -/
theorem checkIn_once_per_day_witness :
    (runCheckIns defaultConfig []
        [⟨"u", 1740, .manual⟩, ⟨"u", 1860, .manual⟩]).1 ≤ 1 ∧
      fmCount ((runCheckIns defaultConfig []
          [⟨"u", 1740, .manual⟩, ⟨"u", 1860, .manual⟩]).2) ("u") 0 =
        (runCheckIns defaultConfig [] [⟨"u", 1740, .manual⟩, ⟨"u", 1860, .manual⟩]).1 :=
  have h := checkIn_once_per_day defaultConfig ("u") 0 []
    [⟨"u", 1740, .manual⟩, ⟨"u", 1860, .manual⟩] rfl (by decide)
  ⟨h.2.1, h.2.2⟩

/-! ### Absence sweeper lemmas -/

theorem hasAnyRecord_iff {st : List AttendanceRecord} {u : String} {d : Int} :
    hasAnyRecord st u d = true ↔ ∃ r ∈ st, r.userId = u ∧ r.date = d := by
  simp [hasAnyRecord, List.any_eq_true, Bool.and_eq_true, beq_iff_eq]

theorem hasAnyRecord_cons {r : AttendanceRecord} {st : List AttendanceRecord} {u : String}
    {d : Int} :
    hasAnyRecord (r :: st) u d = ((r.userId == u && r.date == d) || hasAnyRecord st u d) := by
  simp [hasAnyRecord, List.any_cons]

theorem sweep_spec (d now : Int) (registered : List String) :
    ∀ st : List AttendanceRecord,
      registered.Nodup →
      (sweep st registered d now).1 =
          (registered.filter fun uid => !hasAnyRecord st uid d).length ∧
        (sweep st registered d now).2 =
          ((registered.filter fun uid => !hasAnyRecord st uid d).map
              fun uid => absentRecord uid d now).reverse ++ st := by
  induction registered with
  | nil => intro st _; simp [sweep]
  | cons uid rest ih =>
      intro st hnd
      rcases List.nodup_cons.1 hnd with ⟨huid, hrest⟩
      by_cases hh : hasAnyRecord st uid d = true
      · rcases ih st hrest with ⟨ih1, ih2⟩
        have hsw : sweep st (uid :: rest) d now = sweep st rest d now := by
          simp [sweep, hh]
        have hf : (uid :: rest).filter (fun u => !hasAnyRecord st u d) =
            rest.filter (fun u => !hasAnyRecord st u d) := by
          simp [List.filter_cons, hh]
        rw [hsw, hf]
        exact ⟨ih1, ih2⟩
      · rw [Bool.not_eq_true] at hh
        rcases ih (absentRecord uid d now :: st) hrest with ⟨ih1, ih2⟩
        have hfr : rest.filter (fun u => !hasAnyRecord (absentRecord uid d now :: st) u d) =
            rest.filter (fun u => !hasAnyRecord st u d) := by
          apply List.filter_congr
          intro u hu
          have hne : uid ≠ u := fun h => huid (h ▸ hu)
          rw [hasAnyRecord_cons]
          have hbe : ((absentRecord uid d now).userId == u) = false := by
            simp [absentRecord, hne]
          rw [hbe]
          simp
        have hfc : (uid :: rest).filter (fun u => !hasAnyRecord st u d) =
            uid :: rest.filter (fun u => !hasAnyRecord st u d) := by
          simp [List.filter_cons, hh]
        have hsw1 : (sweep st (uid :: rest) d now).1 =
            (sweep (absentRecord uid d now :: st) rest d now).1 + 1 := by
          simp [sweep, hh]
        have hsw2 : (sweep st (uid :: rest) d now).2 =
            (sweep (absentRecord uid d now :: st) rest d now).2 := by
          simp [sweep, hh]
        constructor
        · rw [hsw1, ih1, hfr, hfc]
          simp
        · rw [hsw2, ih2, hfr, hfc]
          simp [List.reverse_cons, List.append_assoc]

theorem sweep_of_covered (d now : Int) (registered : List String) :
    ∀ st : List AttendanceRecord,
      (∀ uid ∈ registered, hasAnyRecord st uid d = true) →
      sweep st registered d now = (0, st) := by
  induction registered with
  | nil => intro st _; simp [sweep]
  | cons uid rest ih =>
      intro st hcov
      have h1 : hasAnyRecord st uid d = true := hcov uid (by simp)
      have hsw : sweep st (uid :: rest) d now = sweep st rest d now := by
        simp [sweep, h1]
      rw [hsw]
      exact ih st fun u hu => hcov u (by simp [hu])

theorem sweep_covers (d now : Int) (registered : List String) (st : List AttendanceRecord)
    (hnd : registered.Nodup) :
    ∀ uid ∈ registered, hasAnyRecord (sweep st registered d now).2 uid d = true := by
  intro uid hu
  rcases sweep_spec d now registered st hnd with ⟨_, h2⟩
  rw [h2, hasAnyRecord_iff]
  by_cases hh : hasAnyRecord st uid d = true
  · rcases hasAnyRecord_iff.1 hh with ⟨r, hr, hru, hrd⟩
    exact ⟨r, List.mem_append.2 (.inr hr), hru, hrd⟩
  · refine ⟨absentRecord uid d now, ?_, rfl, rfl⟩
    refine List.mem_append.2 (.inl ?_)
    rw [List.mem_reverse]
    exact List.mem_map.2 ⟨uid, List.mem_filter.2 ⟨hu, by simp [hh]⟩, rfl⟩

/-- C7: with a duplicate-free registered-identity list, `sweep` creates
one `absent`-classified, `systemAbsent`-method record for exactly the
registered identities lacking any record for the date, returns the
count created, and is idempotent — running it again for the same date
creates zero additional records and leaves the store unchanged. -/
theorem sweep_idempotent (st : List AttendanceRecord) (registered : List String)
    (d now now₂ : Int) (hnd : registered.Nodup) :
    (sweep st registered d now).1 =
        (registered.filter fun uid => !hasAnyRecord st uid d).length ∧
      (sweep st registered d now).2 =
        ((registered.filter fun uid => !hasAnyRecord st uid d).map
            fun uid => absentRecord uid d now).reverse ++ st ∧
      (∀ r ∈ (sweep st registered d now).2, r ∉ st →
        r.classification = .absent ∧ r.method = .systemAbsent) ∧
      sweep (sweep st registered d now).2 registered d now₂ =
        (0, (sweep st registered d now).2) := by
  rcases sweep_spec d now registered st hnd with ⟨h1, h2⟩
  refine ⟨h1, h2, ?_, ?_⟩
  · intro r hr hrs
    rw [h2] at hr
    rcases List.mem_append.1 hr with hl | hrst
    · rw [List.mem_reverse] at hl
      rcases List.mem_map.1 hl with ⟨u, _, hu⟩
      rw [← hu]
      exact ⟨rfl, rfl⟩
    · exact absurd hrst hrs
  · exact sweep_of_covered d now₂ registered _ (sweep_covers d now registered st hnd)

/-- Witness for C7: sweeping day 0 with identities `a` and `b`, where
`a` already has a record, then sweeping again — the second sweep
creates nothing and leaves the store unchanged. -/
theorem sweep_idempotent_witness :
    sweep (sweep [absentRecord ("a") 0 5] [("a"), ("b")] 0 7).2 [("a"), ("b")] 0 8 =
      (0, (sweep [absentRecord ("a") 0 5] [("a"), ("b")] 0 7).2) :=
  (sweep_idempotent [absentRecord ("a") 0 5] [("a"), ("b")] 0 7 8 (by decide)).2.2.2

/-! ### Statistics lemmas -/

theorem computeCounts_eq (rs : List AttendanceRecord) :
    computeCounts rs =
      (rs.countP (fun r => r.classification == Classification.present),
        rs.countP (fun r => r.classification == Classification.late),
        rs.countP (fun r => r.classification == Classification.absent)) := by
  induction rs with
  | nil => simp [computeCounts]
  | cons r rs ih =>
      cases hc : r.classification <;>
        simp [computeCounts, hc, ih, List.countP_cons]

theorem counts_sum_length (rs : List AttendanceRecord) :
    rs.countP (fun r => r.classification == Classification.present) +
        rs.countP (fun r => r.classification == Classification.late) +
        rs.countP (fun r => r.classification == Classification.absent) = rs.length := by
  induction rs with
  | nil => simp
  | cons r rs ih =>
      cases hc : r.classification <;>
        simp [List.countP_cons, hc] <;> omega

theorem streak_eq_takeWhile (days : List (Option Classification)) :
    streak days = (days.takeWhile isAttended).length := by
  induction days with
  | nil => simp [streak]
  | cons day rest ih =>
      by_cases hday : isAttended day = true
      · simp [streak, hday, List.takeWhile_cons, ih]
      · rw [Bool.not_eq_true] at hday
        simp [streak, hday, List.takeWhile_cons]

/-- C8: `statistics` reports the present/late/absent counts of the
record list, a total equal to the number of records, an attendance
percentage equal to `(present + late) / total * 100`, and a current
streak equal to the number of consecutive trailing days (most recent
first) with a non-absent record, stopping at the first absent or
missing day. -/
theorem statistics_spec (rs : List AttendanceRecord)
    (recentDays : List (Option Classification)) :
    (statistics rs recentDays).presentCount =
        rs.countP (fun r => r.classification == Classification.present) ∧
      (statistics rs recentDays).lateCount =
        rs.countP (fun r => r.classification == Classification.late) ∧
      (statistics rs recentDays).absentCount =
        rs.countP (fun r => r.classification == Classification.absent) ∧
      (statistics rs recentDays).totalDays = rs.length ∧
      (statistics rs recentDays).attendancePercentage =
        ((((statistics rs recentDays).presentCount : ℚ) +
            ((statistics rs recentDays).lateCount : ℚ)) /
          (((statistics rs recentDays).totalDays : ℚ))) * 100 ∧
      (statistics rs recentDays).currentStreak =
        (recentDays.takeWhile isAttended).length := by
  have hc := computeCounts_eq rs
  have hp : (computeCounts rs).1 =
      rs.countP (fun r => r.classification == Classification.present) := by rw [hc]
  have hl : (computeCounts rs).2.1 =
      rs.countP (fun r => r.classification == Classification.late) := by rw [hc]
  have ha : (computeCounts rs).2.2 =
      rs.countP (fun r => r.classification == Classification.absent) := by rw [hc]
  have htot : (computeCounts rs).1 + (computeCounts rs).2.1 + (computeCounts rs).2.2 =
      rs.length := by
    rw [hp, hl, ha]
    exact counts_sum_length rs
  refine ⟨hp, hl, ha, htot, ?_, streak_eq_takeWhile recentDays⟩
  show ((((computeCounts rs).1 : ℚ) + ((computeCounts rs).2.1 : ℚ)) /
      (((computeCounts rs).1 : ℚ) + ((computeCounts rs).2.1 : ℚ) +
        ((computeCounts rs).2.2 : ℚ))) * 100 =
    ((((computeCounts rs).1 : ℚ) + ((computeCounts rs).2.1 : ℚ)) /
      (((computeCounts rs).1 + (computeCounts rs).2.1 + (computeCounts rs).2.2 : Nat) : ℚ)) *
      100
  push_cast
  ring

end FaceAttendance

namespace Frontend

/-! ### Frontend routing and interceptor lemmas -/

/-- C9: with auth resolution finished, a protected route renders a
redirect to `/login` whenever no user is stored; the admin-only route
renders a redirect to `/dashboard` whenever the stored user's role is
not exactly `admin`; and `isAdmin` holds iff the stored user's role is
`admin`, `isTeacher` iff it is `teacher` or `admin`. -/
theorem protectedRoute_auth (adminOnly : Bool) (u : FrontUser)
    (hrole : u.role ≠ "admin") :
    protectedRoute adminOnly false none = .redirectLogin ∧
      protectedRoute true false (some u) = .redirectDashboard ∧
      (∀ v : Option FrontUser, isAdmin v = true ↔ ∃ w, v = some w ∧ w.role = "admin") ∧
      (∀ v : Option FrontUser, isTeacher v = true ↔
        ∃ w, v = some w ∧ (w.role = "teacher" ∨ w.role = "admin")) := by
  refine ⟨rfl, ?_, ?_, ?_⟩
  · simp [protectedRoute, isAdmin, hrole]
  · intro v
    cases v <;> simp [isAdmin]
  · intro v
    cases v <;> simp [isTeacher]

/-- Witness for C9: a stored user with role `student` is redirected off
the admin-only route, and an empty auth state is redirected to login. -/
theorem protectedRoute_auth_witness :
    protectedRoute true false none = RouteRender.redirectLogin ∧
      protectedRoute true false (some ⟨"student"⟩) = RouteRender.redirectDashboard :=
  have h := protectedRoute_auth true ⟨"student"⟩ (by decide)
  ⟨h.1, h.2.1⟩

theorem respondError_not_retry {st : Storage} {req : ApiRequest} {status : Option Nat}
    {ok : Bool} {tok : String} (h : req.retryFlag = true) :
    respondError st req status ok tok =
      { outcome := .rejectOriginal, storage := st, redirect := none, didRefresh := false } := by
  simp [respondError, h]

theorem respondError_retry_case {st : Storage} {req : ApiRequest} {status : Option Nat}
    {ok : Bool} {tok : String} {req' : ApiRequest}
    (h : (respondError st req status ok tok).outcome = .retryRequest req') :
    req' = { retryFlag := true, authHeader := some tok } := by
  unfold respondError at h
  split at h
  · cases hrt : st.refreshTokenVal with
    | none => rw [hrt] at h; simp at h
    | some r =>
        rw [hrt] at h
        by_cases hok : ok = true
        · simp [hok] at h
          cases req'
          simp_all
        · simp [hok] at h
  · simp at h

/-- C10: a 401 response triggers at most one token refresh per request —
the replayed request carries the `_retry` flag, a request already
flagged never refreshes again nor is replayed, and over a request's
whole lifecycle at most one refresh happens; when the refresh itself
fails the interceptor clears the stored access token, refresh token
and user, navigates to `/login` and rejects with the refresh error. -/
theorem interceptor_single_refresh (st : Storage) (req : ApiRequest)
    (status : Option Nat) (ok : Bool) (tok rt : String)
    (s2 : Option Nat) (ok2 : Bool) (tok2 : String) :
    (req.retryFlag = true →
      (respondError st req status ok tok).didRefresh = false ∧
        (respondError st req status ok tok).outcome = .rejectOriginal) ∧
      (∀ req', (respondError st req status ok tok).outcome = .retryRequest req' →
        req'.retryFlag = true) ∧
      lifecycleRefreshes st req status s2 ok ok2 tok tok2 ≤ 1 ∧
      (req.retryFlag = false → status = some 401 → st.refreshTokenVal = some rt →
        ok = false →
        respondError st req status ok tok =
          { outcome := .rejectRefreshError
            storage := { accessToken := none, refreshTokenVal := none, user := none }
            redirect := some ("/login")
            didRefresh := true }) := by
  refine ⟨?_, ?_, ?_, ?_⟩
  · intro h
    rw [respondError_not_retry h]
    exact ⟨rfl, rfl⟩
  · intro req' h
    rw [respondError_retry_case h]
  · simp only [lifecycleRefreshes]
    split
    · next req' heq =>
        have hr' : req' = { retryFlag := true, authHeader := some tok } :=
          respondError_retry_case heq
        have h2 : (respondError (respondError st req status ok tok).storage req' s2 ok2
            tok2).didRefresh = false := by
          rw [respondError_not_retry (by rw [hr'])]
        rw [h2]
        cases hdr : (respondError st req status ok tok).didRefresh <;> simp
    · cases hdr : (respondError st req status ok tok).didRefresh <;> simp
  · intro h1 h2 h3 h4
    subst h2
    subst h4
    simp [respondError, h1, h3]

/-- Witness for C10: a 401 with an untried request, a stored refresh
token and a failing refresh — the interceptor clears all three storage
slots, redirects to login, and the lifecycle performs exactly one
refresh attempt. -/
theorem interceptor_single_refresh_witness :
    respondError ⟨some ("a"), some ("r"), some ("usr")⟩ ⟨false, none⟩ (some 401)
        false ("t") =
      { outcome := .rejectRefreshError
        storage := { accessToken := none, refreshTokenVal := none, user := none }
        redirect := some ("/login")
        didRefresh := true } ∧
      lifecycleRefreshes ⟨some ("a"), some ("r"), some ("usr")⟩ ⟨false, none⟩
        (some 401) (some 401) false false ("t") ("t2") ≤ 1 :=
  have h := interceptor_single_refresh ⟨some ("a"), some ("r"), some ("usr")⟩
    ⟨false, none⟩ (some 401) false ("t") ("r") (some 401) false ("t2")
  ⟨h.2.2.2 rfl rfl rfl rfl, h.2.2.1⟩

end Frontend

namespace FaceAttendance

/-! ### Embedding aggregator lemmas -/

theorem encodeAll_ne_invalid (photos : List EncodeResult) :
    ∀ i : Nat, encodeAll i photos ≠ .error .invalidPhotoCount := by
  induction photos with
  | nil => intro i h; simp [encodeAll] at h
  | cons p rest ih =>
      intro i h
      cases p with
      | noFace => simp [encodeAll] at h
      | multiFace => simp [encodeAll] at h
      | ok v =>
          rw [encodeAll] at h
          cases he : encodeAll (i + 1) rest with
          | ok vs => rw [he] at h; simp [Except.map] at h
          | error e =>
              rw [he] at h
              simp [Except.map] at h
              exact ih (i + 1) (he.trans (by rw [h]))

/-- C6: `aggregate` fails with `InvalidPhotoCount` exactly when the
photo count is below 3 or above 10; in particular it fails for 2
photos and for 11 photos, and for any count in [3, 10] it never
reports `InvalidPhotoCount`. -/
theorem aggregate_invalidPhotoCount_iff :
    (∀ photos : List EncodeResult,
      aggregate photos = .error .invalidPhotoCount ↔
        (photos.length < 3 ∨ 10 < photos.length)) ∧
      aggregate (List.replicate 2 (.ok [1])) = .error .invalidPhotoCount ∧
      aggregate (List.replicate 11 (.ok [1])) = .error .invalidPhotoCount := by
  refine ⟨?_, rfl, rfl⟩
  intro photos
  constructor
  · intro h
    by_contra hc
    rw [aggregate, if_neg hc] at h
    cases he : encodeAll 0 photos with
    | ok vs => rw [he] at h; simp [Except.map] at h
    | error e =>
        rw [he] at h
        simp [Except.map] at h
        exact encodeAll_ne_invalid photos 0 (he.trans (by rw [h]))
  · intro h
    rw [aggregate, if_pos h]

theorem sumSq_nonneg (v : List ℝ) : 0 ≤ sumSq v := by
  apply List.sum_nonneg
  intro x hx
  rcases List.mem_map.1 hx with ⟨y, _, hy⟩
  rw [← hy]
  exact mul_self_nonneg y

theorem sumSq_map_div (v : List ℝ) (c : ℝ) :
    sumSq (v.map fun x => x / c) = sumSq v / (c * c) := by
  induction v with
  | nil => simp [sumSq]
  | cons x xs ih =>
      simp only [sumSq, List.map_cons, List.sum_cons] at ih ⊢
      rw [ih, div_mul_div_comm, div_add_div_same]

theorem l2norm_normalize {v : List ℝ} (h : sumSq v ≠ 0) : l2norm (normalize v) = 1 := by
  have hpos : 0 < sumSq v := lt_of_le_of_ne (sumSq_nonneg v) (Ne.symm h)
  rw [l2norm, normalize, sumSq_map_div, l2norm,
    Real.mul_self_sqrt (le_of_lt hpos), div_self h, Real.sqrt_one]

/-- C5: for a batch of n photos, n ∈ [3, 10], all yielding exactly one
embedding, `aggregate` returns the element-wise arithmetic mean of the
per-photo embeddings re-normalised to unit L2 length together with the
photo count n, and the returned vector has L2 norm exactly 1 (provided
the mean is not the zero vector, without which normalisation is
undefined). -/
theorem aggregate_unit_norm (photos : List EncodeResult) (embs : List (List ℝ))
    (h3 : 3 ≤ photos.length) (h10 : photos.length ≤ 10)
    (henc : encodeAll 0 photos = .ok embs)
    (hnz : sumSq (meanVec embs) ≠ 0) :
    aggregate photos = .ok (normalize (meanVec embs), photos.length) ∧
      l2norm (normalize (meanVec embs)) = 1 := by
  constructor
  · rw [aggregate, if_neg (by omega), henc]
    rfl
  · exact l2norm_normalize hnz

/-- Witness for C5: three identical photos with embedding `[3, 4]` —
the aggregate is the normalisation of the mean `[3, 4]` and has unit
norm. -/
theorem aggregate_unit_norm_witness :
    aggregate [.ok [3, 4], .ok [3, 4], .ok [3, 4]] =
        .ok (normalize (meanVec [[3, 4], [3, 4], [3, 4]]), 3) ∧
      l2norm (normalize (meanVec [[3, 4], [3, 4], [3, 4]])) = 1 :=
  aggregate_unit_norm [.ok [3, 4], .ok [3, 4], .ok [3, 4]] [[3, 4], [3, 4], [3, 4]]
    (by decide) (by decide) rfl
    (by norm_num [meanVec, addVec, sumSq])

/-! ### Matcher lemmas -/

theorem foldl_max_le_self (l : List (String × ℝ)) :
    ∀ a : ℝ, a ≤ l.foldl (fun acc q => max acc q.2) a := by
  induction l with
  | nil => intro a; simp
  | cons p ps ih =>
      intro a
      rw [List.foldl_cons]
      exact le_trans (le_max_left a p.2) (ih (max a p.2))

theorem foldl_max_mem_le (l : List (String × ℝ)) :
    ∀ (a : ℝ) (p : String × ℝ), p ∈ l →
      p.2 ≤ l.foldl (fun acc q => max acc q.2) a := by
  induction l with
  | nil => intro a p hp; simp at hp
  | cons q qs ih =>
      intro a p hp
      rw [List.foldl_cons]
      rcases List.mem_cons.1 hp with h | h
      · rw [h]
        exact le_trans (le_max_right a q.2) (foldl_max_le_self qs (max a q.2))
      · exact ih (max a q.2) p h

theorem foldl_max_attained (l : List (String × ℝ)) :
    ∀ a : ℝ, l.foldl (fun acc q => max acc q.2) a = a ∨
      ∃ p ∈ l, l.foldl (fun acc q => max acc q.2) a = p.2 := by
  induction l with
  | nil => intro a; exact .inl rfl
  | cons q qs ih =>
      intro a
      rw [List.foldl_cons]
      rcases ih (max a q.2) with h | ⟨p, hp, hfp⟩
      · rcases max_choice a q.2 with hm | hm
        · exact .inl (by rw [h, hm])
        · exact .inr ⟨q, by simp, by rw [h, hm]⟩
      · exact .inr ⟨p, by simp [hp], hfp⟩

theorem maxScore_le {l : List (String × ℝ)} {p : String × ℝ} (hp : p ∈ l) :
    p.2 ≤ maxScore l := by
  cases l with
  | nil => simp at hp
  | cons q qs =>
      rw [maxScore]
      rcases List.mem_cons.1 hp with h | h
      · rw [h]
        exact foldl_max_le_self qs q.2
      · exact foldl_max_mem_le qs q.2 p h

theorem maxScore_attained {l : List (String × ℝ)} (hl : l ≠ []) :
    ∃ p ∈ l, maxScore l = p.2 := by
  cases l with
  | nil => exact absurd rfl hl
  | cons q qs =>
      rw [maxScore]
      rcases foldl_max_attained qs q.2 with h | ⟨p, hp, hfp⟩
      · exact ⟨q, by simp, h⟩
      · exact ⟨p, by simp [hp], hfp⟩

/-- C4: for a nonempty template set `identify` scores every template by
cosine similarity against the probe and selects the maximum: any
accepted `(id, s)` is one of the scored templates, `s` reaches the
threshold, `s` bounds every scored similarity, and exactly one scored
entry attains `s`; if two or more scored entries attain the maximal
score, `identify` rejects (fail closed); and if the maximum reaches
the threshold and is uniquely attained, `identify` accepts it. -/
theorem identify_max_unique (probe : List ℝ) (templates : List (String × List ℝ))
    (threshold : ℝ) (hne : templates ≠ []) :
    (∀ id s, identify probe templates threshold = some (id, s) →
      (id, s) ∈ scoreAll probe templates ∧ threshold ≤ s ∧
        (∀ p ∈ scoreAll probe templates, p.2 ≤ s) ∧
        ((scoreAll probe templates).filter fun p => decide (p.2 = s)).length = 1) ∧
      (2 ≤ ((scoreAll probe templates).filter fun p =>
          decide (p.2 = maxScore (scoreAll probe templates))).length →
        identify probe templates threshold = none) ∧
      (threshold ≤ maxScore (scoreAll probe templates) →
        ((scoreAll probe templates).filter fun p =>
          decide (p.2 = maxScore (scoreAll probe templates))).length = 1 →
        ∃ id, identify probe templates threshold =
          some (id, maxScore (scoreAll probe templates))) := by
  cases templates with
  | nil => exact absurd rfl hne
  | cons t ts =>
      refine ⟨?_, ?_, ?_⟩
      · intro id s h
        simp only [identify] at h
        by_cases hcond : threshold ≤ maxScore (scoreAll probe (t :: ts)) ∧
            ((scoreAll probe (t :: ts)).filter fun p =>
              decide (p.2 = maxScore (scoreAll probe (t :: ts)))).length = 1
        · rw [if_pos hcond] at h
          have hmem : (id, s) ∈ scoreAll probe (t :: ts) := List.mem_of_find?_eq_some h
          have hpred := List.find?_some h
          have hs : s = maxScore (scoreAll probe (t :: ts)) := of_decide_eq_true hpred
          refine ⟨hmem, ?_, ?_, ?_⟩
          · rw [hs]
            exact hcond.1
          · intro p hp
            rw [hs]
            exact maxScore_le hp
          · rw [hs]
            exact hcond.2
        · rw [if_neg hcond] at h
          exact absurd h (by simp)
      · intro h2
        simp only [identify]
        have hnc : ¬(threshold ≤ maxScore (scoreAll probe (t :: ts)) ∧
            ((scoreAll probe (t :: ts)).filter fun p =>
              decide (p.2 = maxScore (scoreAll probe (t :: ts)))).length = 1) := by
          intro hcond
          exact absurd hcond.2 (by omega)
        rw [if_neg hnc]
      · intro h1 hcount
        simp only [identify]
        rw [if_pos ⟨h1, hcount⟩]
        have hex : ∃ p ∈ scoreAll probe (t :: ts),
            (fun p => decide (p.2 = maxScore (scoreAll probe (t :: ts)))) p = true := by
          rcases maxScore_attained
              (show scoreAll probe (t :: ts) ≠ [] by simp [scoreAll]) with
            ⟨p, hp, hmp⟩
          exact ⟨p, hp, decide_eq_true hmp.symm⟩
        obtain ⟨q, hq⟩ := Option.isSome_iff_exists.1 (List.find?_isSome.2 hex)
        have hpq := List.find?_some hq
        have hq2 : q.2 = maxScore (scoreAll probe (t :: ts)) := of_decide_eq_true hpq
        exact ⟨q.1, by rw [hq, ← hq2]⟩

/-- Witness for C4: probe `[1, 0]` against the single stored template
`("A", [1, 0])` with threshold 1/2 — the cosine similarity is 1,
uniquely attained, so `identify` accepts at the maximal score. -/
theorem identify_max_unique_witness :
    ∃ id, identify [1, 0] [(("A"), [1, 0])] (1/2) =
      some (id, maxScore (scoreAll [1, 0] [(("A"), [1, 0])])) := by
  have hss : sumSq [(1 : ℝ), 0] = 1 := by norm_num [sumSq]
  have hl2 : l2norm [(1 : ℝ), 0] = 1 := by rw [l2norm, hss, Real.sqrt_one]
  have hcs : cosineSim [(1 : ℝ), 0] [(1 : ℝ), 0] = 1 := by
    rw [cosineSim, hl2]
    norm_num [dotVec]
  have hsl : scoreAll [(1 : ℝ), 0] [(("A"), [1, 0])] = [(("A"), (1 : ℝ))] := by
    simp [scoreAll, hcs]
  have h := identify_max_unique [1, 0] [(("A"), [1, 0])] (1/2) (by simp)
  apply h.2.2
  · rw [hsl]
    norm_num [maxScore]
  · rw [hsl]
    simp [maxScore]

end FaceAttendance
